import Mathlib

set_option maxRecDepth 10000

/-!
Shallow embedding of the chess rules engine from `src/chess-engine/src/chess/`
(`types.rs`, `board.rs`, `game.rs`).  Machine integers (`u8`, `u32`) are
modelled as `Nat`; the `as i8` casts of `u8` values are modelled by `i8` below;
Rust panics (`unwrap` on `None`, out-of-bounds indexing) are modelled by
`Option`-valued functions returning `none`.
-/

namespace Chess

/-- Models the Rust `x as i8` cast of a `u8`-valued quantity held in a `Nat`. -/
def i8 (x : Nat) : Int :=
  if x % 256 < 128 then (x % 256 : Int) else (x % 256 : Int) - 256

/-- Models the Rust `x as u8` cast of an `i8`-valued `Int`. -/
def u8_of_int (i : Int) : Nat := (i % 256).toNat

/-- Models `u8::checked_sub`. -/
def checked_sub (a b : Nat) : Option Nat :=
  if b ≤ a then some (a - b) else none

/-- `types.rs`: `Color`. -/
inductive Color where
  | White
  | Black
deriving DecidableEq, Repr

/-- `types.rs`: `Color::opposite`. -/
def Color.opposite : Color → Color
  | .White => .Black
  | .Black => .White

/-- `types.rs`: `PieceType`. -/
inductive PieceType where
  | Pawn
  | Rook
  | Knight
  | Bishop
  | Queen
  | King
deriving DecidableEq, Repr

/-- `types.rs`: `Piece`. -/
structure Piece where
  piece_type : PieceType
  color : Color
deriving DecidableEq, Repr

/-- `types.rs`: `Square` (fields are `u8` in the source). -/
structure Square where
  file : Nat
  rank : Nat
deriving DecidableEq, Repr

/-- `types.rs`: `Square::new`. -/
def Square.new (file rank : Nat) : Option Square :=
  if file < 8 ∧ rank < 8 then some ⟨file, rank⟩ else none

/-- `types.rs`: `Square::is_valid`. -/
def Square.is_valid (sq : Square) : Prop := sq.file < 8 ∧ sq.rank < 8

instance (sq : Square) : Decidable sq.is_valid := by
  unfold Square.is_valid; infer_instance

/-- UTF-8 byte length of a string, i.e. Rust `str::len`. -/
def utf8_len (s : List Char) : Nat := (s.map Char.utf8Size).sum

/-- `types.rs`: `Square::from_algebraic`.  The argument is the char sequence of
the input string; the outer `Option` models a Rust panic (`none` = panic, from
the `chars[1]` indexing), the inner one is the source's `Option<Square>`. -/
def Square.from_algebraic (s : List Char) : Option (Option Square) :=
  if utf8_len s ≠ 2 then some none
  else
    match s.get? 0 with
    | none => none
    | some c0 =>
      match checked_sub (c0.toNat % 256) 97 with
      | none => some none
      | some file =>
        match s.get? 1 with
        | none => none
        | some c1 =>
          match checked_sub (c1.toNat % 256) 49 with
          | none => some none
          | some rank => some (Square.new file rank)

/-- `types.rs`: `Square::to_algebraic`. -/
def Square.to_algebraic (sq : Square) : String :=
  String.mk [Char.ofNat (97 + sq.file), Char.ofNat (49 + sq.rank)]

/-- `types.rs`: `Move` (`from`/`to` renamed `from_sq`/`to_sq`; `from` is a Lean
keyword). -/
structure Move where
  from_sq : Square
  to_sq : Square
  promotion : Option PieceType
  is_castling : Bool
  is_en_passant : Bool
deriving DecidableEq, Repr

/-- `types.rs`: `Move::new`. -/
def Move.new (f t : Square) : Move := ⟨f, t, none, false, false⟩

/-- `types.rs`: `CastlingRights`. -/
structure CastlingRights where
  white_kingside : Bool
  white_queenside : Bool
  black_kingside : Bool
  black_queenside : Bool
deriving DecidableEq, Repr

/-- `types.rs`: `CastlingRights::new`. -/
def CastlingRights.new : CastlingRights := ⟨true, true, true, true⟩

/-- `types.rs`: `CastlingRights::can_castle`. -/
def CastlingRights.can_castle (cr : CastlingRights) (color : Color) (kingside : Bool) : Bool :=
  match color, kingside with
  | .White, true => cr.white_kingside
  | .White, false => cr.white_queenside
  | .Black, true => cr.black_kingside
  | .Black, false => cr.black_queenside

/-- `types.rs`: `CastlingRights::remove_rights`. -/
def CastlingRights.remove_rights (cr : CastlingRights) (color : Color)
    (kingside : Option Bool) : CastlingRights :=
  match color with
  | .White =>
    match kingside with
    | some true => { cr with white_kingside := false }
    | some false => { cr with white_queenside := false }
    | none => { cr with white_kingside := false, white_queenside := false }
  | .Black =>
    match kingside with
    | some true => { cr with black_kingside := false }
    | some false => { cr with black_queenside := false }
    | none => { cr with black_kingside := false, black_queenside := false }

/-- `types.rs`: `GameStatus`. -/
inductive GameStatus where
  | InProgress
  | Check
  | Checkmate (winner : Color)
  | Stalemate
  | Draw
deriving DecidableEq, Repr

/-- `board.rs`: `Board`, an 8×8 grid indexed `squares[rank][file]`. -/
structure Board where
  squares : Fin 8 → Fin 8 → Option Piece

instance : DecidableEq Board := fun a b =>
  decidable_of_iff (a.squares = b.squares)
    ⟨fun h => by cases a; cases b; simpa using h, fun h => by rw [h]⟩

/-- `board.rs`: `Board::empty`. -/
def Board.empty : Board := ⟨fun _ _ => none⟩

/-- `board.rs`: `Board::get_piece`. -/
def Board.get_piece (b : Board) (sq : Square) : Option Piece :=
  if h : sq.is_valid then b.squares ⟨sq.rank, h.2⟩ ⟨sq.file, h.1⟩ else none

/-- `board.rs`: `Board::set_piece`. -/
def Board.set_piece (b : Board) (sq : Square) (p : Piece) : Board :=
  if sq.is_valid then
    ⟨fun r f => if r.val = sq.rank ∧ f.val = sq.file then some p else b.squares r f⟩
  else b

/-- `board.rs`: `Board::remove_piece` (returns the updated board together with
the removed piece). -/
def Board.remove_piece (b : Board) (sq : Square) : Board × Option Piece :=
  if sq.is_valid then
    (⟨fun r f => if r.val = sq.rank ∧ f.val = sq.file then none else b.squares r f⟩,
     b.get_piece sq)
  else (b, none)

/-- `board.rs`: `Board::move_piece`.  The early `?` return on an empty/invalid
source leaves the board as `remove_piece` left it. -/
def Board.move_piece (b : Board) (f t : Square) : Board × Option Piece :=
  let r := b.remove_piece f
  match r.2 with
  | none => (r.1, none)
  | some piece =>
    let r2 := r.1.remove_piece t
    (r2.1.set_piece t piece, r2.2)

/-- The rank-major, file-minor scan order used by every `for rank in 0..8
{ for file in 0..8 { ... } }` loop in `board.rs` / `game.rs`. -/
def scan_squares : List Square :=
  (List.range 8).flatMap fun rank => (List.range 8).map fun file => ⟨file, rank⟩

/-- `board.rs`: `Board::find_king` (first match in scan order). -/
def Board.find_king (b : Board) (color : Color) : Option Square :=
  scan_squares.find? fun sq =>
    match b.get_piece sq with
    | some piece => decide (piece.piece_type = PieceType.King ∧ piece.color = color)
    | none => false

/-- `board.rs`: `Board::get_pieces` (pushed in scan order). -/
def Board.get_pieces (b : Board) (color : Color) : List (Square × Piece) :=
  scan_squares.foldl (fun acc sq =>
    match b.get_piece sq with
    | some piece => if piece.color = color then acc ++ [(sq, piece)] else acc
    | none => acc) []

/-- `board.rs`: `Board::can_pawn_attack`. -/
def Board.can_pawn_attack (_ : Board) (f t : Square) (color : Color) : Bool :=
  let direction : Int := match color with | .White => 1 | .Black => -1
  let file_diff := i8 t.file - i8 f.file
  let rank_diff := i8 t.rank - i8 f.rank
  file_diff.natAbs = 1 ∧ rank_diff = direction

/-- The walk inside `board.rs`: `Board::is_path_clear`.  `none` models the
panic of `Square::new(..).unwrap()` when the walk leaves the board; the fuel
(32) exceeds the longest possible walk, which either reaches `to`, hits a
piece, or panics within at most 10 steps. -/
def Board.path_walk (b : Board) (toF toR fs rs : Int) :
    Int → Int → Nat → Option Bool
  | _, _, 0 => none
  | cf, cr, fuel + 1 =>
    if cf = toF ∧ cr = toR then some true
    else
      match Square.new (u8_of_int cf) (u8_of_int cr) with
      | none => none
      | some sq =>
        if (b.get_piece sq).isSome then some false
        else b.path_walk toF toR fs rs (cf + fs) (cr + rs) fuel

/-- `board.rs`: `Board::is_path_clear`. -/
def Board.is_path_clear (b : Board) (f t : Square) : Option Bool :=
  let fs := (i8 t.file - i8 f.file).sign
  let rs := (i8 t.rank - i8 f.rank).sign
  b.path_walk (i8 t.file) (i8 t.rank) fs rs (i8 f.file + fs) (i8 f.rank + rs) 32

/-- `board.rs`: `Board::can_piece_attack`.  `none` models a panic inside
`is_path_clear`; `&&` short-circuits, so the path test only runs on aligned
squares, as in the source. -/
def Board.can_piece_attack (b : Board) (f t : Square) (piece : Piece) : Option Bool :=
  if f = t then some false
  else
    let file_diff := (i8 t.file - i8 f.file).natAbs
    let rank_diff := (i8 t.rank - i8 f.rank).natAbs
    match piece.piece_type with
    | .Pawn => some (b.can_pawn_attack f t piece.color)
    | .Rook =>
      if file_diff = 0 ∨ rank_diff = 0 then b.is_path_clear f t else some false
    | .Bishop =>
      if file_diff = rank_diff then b.is_path_clear f t else some false
    | .Queen =>
      if file_diff = 0 ∨ rank_diff = 0 ∨ file_diff = rank_diff then b.is_path_clear f t
      else some false
    | .Knight =>
      some (decide ((file_diff = 2 ∧ rank_diff = 1) ∨ (file_diff = 1 ∧ rank_diff = 2)))
    | .King => some (decide (file_diff ≤ 1 ∧ rank_diff ≤ 1))

/-- The scan loop of `board.rs`: `Board::is_square_attacked`; early `return
true` stops the scan before later panics, as in the source. -/
def Board.attacked_aux (b : Board) (sq : Square) (by_color : Color) :
    List Square → Option Bool
  | [] => some false
  | f :: rest =>
    match b.get_piece f with
    | some piece =>
      if piece.color = by_color then
        match b.can_piece_attack f sq piece with
        | none => none
        | some true => some true
        | some false => b.attacked_aux sq by_color rest
      else b.attacked_aux sq by_color rest
    | none => b.attacked_aux sq by_color rest

/-- `board.rs`: `Board::is_square_attacked`. -/
def Board.is_square_attacked (b : Board) (sq : Square) (by_color : Color) : Option Bool :=
  b.attacked_aux sq by_color scan_squares

/-- `board.rs`: `Board::setup_starting_position` applied to the empty board,
i.e. `Board::new`.  Note the source places the White king on `(3,0)` (d1) and
the White queen on `(4,0)` (e1), and symmetrically for Black. -/
def Board.new : Board :=
  let b := Board.empty
  let b := b.set_piece ⟨0, 0⟩ ⟨.Rook, .White⟩
  let b := b.set_piece ⟨1, 0⟩ ⟨.Knight, .White⟩
  let b := b.set_piece ⟨2, 0⟩ ⟨.Bishop, .White⟩
  let b := b.set_piece ⟨3, 0⟩ ⟨.King, .White⟩
  let b := b.set_piece ⟨4, 0⟩ ⟨.Queen, .White⟩
  let b := b.set_piece ⟨5, 0⟩ ⟨.Bishop, .White⟩
  let b := b.set_piece ⟨6, 0⟩ ⟨.Knight, .White⟩
  let b := b.set_piece ⟨7, 0⟩ ⟨.Rook, .White⟩
  let b := (List.range 8).foldl (fun b file => b.set_piece ⟨file, 1⟩ ⟨.Pawn, .White⟩) b
  let b := b.set_piece ⟨0, 7⟩ ⟨.Rook, .Black⟩
  let b := b.set_piece ⟨1, 7⟩ ⟨.Knight, .Black⟩
  let b := b.set_piece ⟨2, 7⟩ ⟨.Bishop, .Black⟩
  let b := b.set_piece ⟨3, 7⟩ ⟨.King, .Black⟩
  let b := b.set_piece ⟨4, 7⟩ ⟨.Queen, .Black⟩
  let b := b.set_piece ⟨5, 7⟩ ⟨.Bishop, .Black⟩
  let b := b.set_piece ⟨6, 7⟩ ⟨.Knight, .Black⟩
  let b := b.set_piece ⟨7, 7⟩ ⟨.Rook, .Black⟩
  (List.range 8).foldl (fun b file => b.set_piece ⟨file, 6⟩ ⟨.Pawn, .Black⟩) b

end Chess

namespace Chess

/-- `game.rs`: `ChessError`. -/
inductive ChessError where
  | InvalidMove (reason : String)
  | GameOver
  | NotYourTurn
  | KingInCheck
deriving DecidableEq, Repr

/-- `game.rs`: `GameState`. -/
structure GameState where
  board : Board
  current_player : Color
  castling_rights : CastlingRights
  en_passant_target : Option Square
  halfmove_clock : Nat
  fullmove_number : Nat
  status : GameStatus
deriving DecidableEq

/-- `game.rs`: `GameState::new`, i.e. the spec's `new_game()`. -/
def GameState.new : GameState :=
  ⟨Board.new, .White, CastlingRights.new, none, 0, 1, .InProgress⟩

/-- `game.rs`: `GameState::is_legal_pawn_move` (`&&` short-circuit preserved:
the path test only runs after the rank/occupancy tests succeed). -/
def GameState.is_legal_pawn_move (s : GameState) (m : Move) (color : Color) : Option Bool :=
  let f := m.from_sq
  let t := m.to_sq
  let direction : Int := match color with | .White => 1 | .Black => -1
  let file_diff := i8 t.file - i8 f.file
  let rank_diff := i8 t.rank - i8 f.rank
  if file_diff = 0 then
    if rank_diff = direction then
      some (s.board.get_piece t).isNone
    else if rank_diff = 2 * direction then
      let starting_rank : Nat := match color with | .White => 1 | .Black => 6
      if f.rank = starting_rank ∧ (s.board.get_piece t).isNone then
        s.board.is_path_clear f t
      else some false
    else some false
  else if file_diff.natAbs = 1 ∧ rank_diff = direction then
    if (s.board.get_piece t).isSome then some true
    else if some t = s.en_passant_target then some m.is_en_passant
    else some false
  else some false

/-- `game.rs`: `GameState::is_legal_rook_move`. -/
def GameState.is_legal_rook_move (s : GameState) (f t : Square) : Option Bool :=
  let file_diff := (i8 t.file - i8 f.file).natAbs
  let rank_diff := (i8 t.rank - i8 f.rank).natAbs
  if file_diff = 0 ∨ rank_diff = 0 then s.board.is_path_clear f t else some false

/-- `game.rs`: `GameState::is_legal_knight_move`. -/
def GameState.is_legal_knight_move (_ : GameState) (f t : Square) : Bool :=
  let file_diff := (i8 t.file - i8 f.file).natAbs
  let rank_diff := (i8 t.rank - i8 f.rank).natAbs
  decide ((file_diff = 2 ∧ rank_diff = 1) ∨ (file_diff = 1 ∧ rank_diff = 2))

/-- `game.rs`: `GameState::is_legal_bishop_move`. -/
def GameState.is_legal_bishop_move (s : GameState) (f t : Square) : Option Bool :=
  let file_diff := (i8 t.file - i8 f.file).natAbs
  let rank_diff := (i8 t.rank - i8 f.rank).natAbs
  if file_diff = rank_diff ∧ 0 < file_diff then s.board.is_path_clear f t else some false

/-- `game.rs`: `GameState::is_legal_queen_move` (`||` short-circuit). -/
def GameState.is_legal_queen_move (s : GameState) (f t : Square) : Option Bool :=
  match s.is_legal_rook_move f t with
  | none => none
  | some true => some true
  | some false => s.is_legal_bishop_move f t

/-- `game.rs`: `GameState::is_legal_king_move`. -/
def GameState.is_legal_king_move (_ : GameState) (f t : Square) : Bool :=
  let file_diff := (i8 t.file - i8 f.file).natAbs
  let rank_diff := (i8 t.rank - i8 f.rank).natAbs
  decide (file_diff ≤ 1 ∧ rank_diff ≤ 1 ∧ (0 < file_diff ∨ 0 < rank_diff))

/-- `game.rs`: `GameState::is_in_check` (a missing king is tolerated: `false`). -/
def GameState.is_in_check (s : GameState) (color : Color) : Option Bool :=
  match s.board.find_king color with
  | some king_square => s.board.is_square_attacked king_square color.opposite
  | none => some false

/-- The `for square in squares_to_check` loop of `game.rs`:
`GameState::is_legal_castling`. -/
def GameState.castling_transit_ok (s : GameState) (f t : Square) (color : Color) :
    List Square → Option Bool
  | [] => some true
  | sq :: rest =>
    if sq ≠ t ∧ (s.board.get_piece sq).isSome then some false
    else
      if sq.file ≤ 6 ∧ 2 ≤ sq.file then
        let temp := (s.board.move_piece f sq).1
        match temp.is_square_attacked sq color.opposite with
        | none => none
        | some true => some false
        | some false => s.castling_transit_ok f t color rest
      else s.castling_transit_ok f t color rest

/-- `game.rs`: `GameState::is_legal_castling`.  The king start square the code
insists on is file 4 of the back rank (`Square::new(4, 0)` / `(4, 7)`). -/
def GameState.is_legal_castling (s : GameState) (m : Move) (color : Color) : Option Bool :=
  let f := m.from_sq
  let t := m.to_sq
  let king_start : Square := match color with | .White => ⟨4, 0⟩ | .Black => ⟨4, 7⟩
  if f ≠ king_start then some false
  else
    let kingside := decide (f.file < t.file)
    if ¬ (s.castling_rights.can_castle color kingside = true) then some false
    else
      match s.is_in_check color with
      | none => none
      | some true => some false
      | some false =>
        let squares_to_check : List Square :=
          if kingside then [⟨5, f.rank⟩, ⟨6, f.rank⟩]
          else [⟨3, f.rank⟩, ⟨2, f.rank⟩, ⟨1, f.rank⟩]
        s.castling_transit_ok f t color squares_to_check

/-- `game.rs`: `GameState::is_legal_move`.  The same-colour-destination test
comes first; note the dispatch consults `is_castling` only for kings and never
reads `promotion`. -/
def GameState.is_legal_move (s : GameState) (m : Move) (piece : Piece) : Option Bool :=
  if (match s.board.get_piece m.to_sq with
      | some dest_piece => decide (dest_piece.color = piece.color)
      | none => false) then some false
  else
    match piece.piece_type with
    | .Pawn => s.is_legal_pawn_move m piece.color
    | .Rook => s.is_legal_rook_move m.from_sq m.to_sq
    | .Knight => some (s.is_legal_knight_move m.from_sq m.to_sq)
    | .Bishop => s.is_legal_bishop_move m.from_sq m.to_sq
    | .Queen => s.is_legal_queen_move m.from_sq m.to_sq
    | .King =>
      if m.is_castling then s.is_legal_castling m piece.color
      else some (s.is_legal_king_move m.from_sq m.to_sq)

/-- `game.rs`: `GameState::would_leave_king_in_check` (scratch-board
simulation; the two `unwrap`s and the `Square::new(..).unwrap()` panic are the
`none` branches). -/
def GameState.would_leave_king_in_check (s : GameState) (m : Move) : Option Bool :=
  match s.board.get_piece m.from_sq with
  | none => none
  | some piece =>
    let temp := (s.board.move_piece m.from_sq m.to_sq).1
    let after_ep :=
      if m.is_en_passant then
        (Square.new m.to_sq.file m.from_sq.rank).map fun capture_square =>
          (temp.remove_piece capture_square).1
      else some temp
    match after_ep with
    | none => none
    | some temp2 =>
      let king? :=
        if piece.piece_type = PieceType.King then some m.to_sq
        else temp2.find_king s.current_player
      match king? with
      | none => none
      | some king_square => temp2.is_square_attacked king_square s.current_player.opposite

/-- `game.rs`: `GameState::validate_move` (ordered checks, each with its
distinct error). -/
def GameState.validate_move (s : GameState) (m : Move) : Option (Except ChessError Unit) :=
  match s.board.get_piece m.from_sq with
  | none => some (.error (.InvalidMove "No piece at source square"))
  | some piece =>
    if piece.color ≠ s.current_player then some (.error .NotYourTurn)
    else
      match s.is_legal_move m piece with
      | none => none
      | some false => some (.error (.InvalidMove "Illegal move for this piece"))
      | some true =>
        match s.would_leave_king_in_check m with
        | none => none
        | some true => some (.error .KingInCheck)
        | some false => some (.ok ())

/-- `game.rs`: `GameState::execute_move`.  The castling branch is taken purely
on the move's `is_castling` flag; promotion is applied unconditionally on the
regular branch. -/
def GameState.execute_move (s : GameState) (m : Move) : Option GameState :=
  match s.board.get_piece m.from_sq with
  | none => none
  | some piece =>
    if m.is_castling then
      let b1 := (s.board.move_piece m.from_sq m.to_sq).1
      let rook_sqs :=
        if m.from_sq.file < m.to_sq.file then
          (Square.new 7 m.from_sq.rank).bind fun rf =>
            (Square.new 5 m.from_sq.rank).map fun rt => (rf, rt)
        else
          (Square.new 0 m.from_sq.rank).bind fun rf =>
            (Square.new 3 m.from_sq.rank).map fun rt => (rf, rt)
      match rook_sqs with
      | none => none
      | some (rook_from, rook_to) =>
        some { s with board := (b1.move_piece rook_from rook_to).1 }
    else
      let b1 := (s.board.move_piece m.from_sq m.to_sq).1
      let after_ep :=
        if m.is_en_passant then
          (Square.new m.to_sq.file m.from_sq.rank).map fun capture_square =>
            (b1.remove_piece capture_square).1
        else some b1
      match after_ep with
      | none => none
      | some b2 =>
        let b3 :=
          match m.promotion with
          | some promo => b2.set_piece m.to_sq ⟨promo, piece.color⟩
          | none => b2
        some { s with board := b3 }

/-- `game.rs`: `GameState::update_castling_rights` (inspects the piece now at
the destination — after promotion). -/
def GameState.update_castling_rights (s : GameState) (m : Move) : Option GameState :=
  match s.board.get_piece m.to_sq with
  | none => none
  | some piece =>
    match piece.piece_type with
    | .King =>
      some { s with castling_rights := s.castling_rights.remove_rights piece.color none }
    | .Rook =>
      let rank : Nat := match piece.color with | .White => 0 | .Black => 7
      if m.from_sq = (⟨0, rank⟩ : Square) then
        some { s with castling_rights := s.castling_rights.remove_rights piece.color (some false) }
      else if m.from_sq = (⟨7, rank⟩ : Square) then
        some { s with castling_rights := s.castling_rights.remove_rights piece.color (some true) }
      else some s
    | _ => some s

/-- `game.rs`: `GameState::update_en_passant` (the `u8` addition
`from.rank + to.rank` wraps; `Square::new(..).unwrap()` is the `none`). -/
def GameState.update_en_passant (s : GameState) (m : Move) : Option GameState :=
  match s.board.get_piece m.to_sq with
  | none => none
  | some piece =>
    let s1 := { s with en_passant_target := (none : Option Square) }
    if piece.piece_type = PieceType.Pawn then
      if (i8 m.to_sq.rank - i8 m.from_sq.rank).natAbs = 2 then
        let target_rank := (m.from_sq.rank + m.to_sq.rank) % 256 / 2
        match Square.new m.to_sq.file target_rank with
        | none => none
        | some target => some { s1 with en_passant_target := some target }
      else some s1
    else some s1

/-- `game.rs`: `GameState::update_clocks` (inspects the piece now at the
destination — after promotion). -/
def GameState.update_clocks (s : GameState) (m : Move) : Option GameState :=
  match s.board.get_piece m.to_sq with
  | none => none
  | some piece =>
    if piece.piece_type = PieceType.Pawn ∨ m.is_en_passant then
      some { s with halfmove_clock := 0 }
    else
      some { s with halfmove_clock := s.halfmove_clock + 1 }

/-- `game.rs`: `GameState::switch_player`. -/
def GameState.switch_player (s : GameState) : GameState :=
  let s1 := { s with current_player := s.current_player.opposite }
  if s1.current_player = Color.White then
    { s1 with fullmove_number := s1.fullmove_number + 1 }
  else s1

/-- The inner `for rank { for file }` loop of `game.rs`:
`GameState::has_legal_moves` (candidates are plain `Move::new`, no flags). -/
def GameState.try_targets (s : GameState) (f : Square) (piece : Piece) :
    List Square → Option Bool
  | [] => some false
  | t :: rest =>
    let m := Move.new f t
    match s.is_legal_move m piece with
    | none => none
    | some false => s.try_targets f piece rest
    | some true =>
      match s.would_leave_king_in_check m with
      | none => none
      | some false => some true
      | some true => s.try_targets f piece rest

/-- The outer piece loop of `game.rs`: `GameState::has_legal_moves`. -/
def GameState.try_pieces (s : GameState) : List (Square × Piece) → Option Bool
  | [] => some false
  | (f, piece) :: rest =>
    match s.try_targets f piece scan_squares with
    | none => none
    | some true => some true
    | some false => s.try_pieces rest

/-- `game.rs`: `GameState::has_legal_moves`. -/
def GameState.has_legal_moves (s : GameState) : Option Bool :=
  s.try_pieces (s.board.get_pieces s.current_player)

/-- `game.rs`: `GameState::update_status` (runs after the player switch; a
halfmove clock of 50 or more overrides everything with `Draw`). -/
def GameState.update_status (s : GameState) : Option GameState :=
  match s.is_in_check s.current_player with
  | none => none
  | some in_check =>
    match s.has_legal_moves with
    | none => none
    | some hlm =>
      let st :=
        if ¬ (hlm = true) then
          if in_check then GameStatus.Checkmate s.current_player.opposite
          else GameStatus.Stalemate
        else if in_check then GameStatus.Check
        else GameStatus.InProgress
      let st2 := if 50 ≤ s.halfmove_clock then GameStatus.Draw else st
      some { s with status := st2 }

/-- Outcome of one `make_move` call on a `&mut` game state: a Rust panic, an
error return (carrying the state the caller is left with), or success. -/
inductive MoveOutcome where
  | panic
  | err (e : ChessError) (st : GameState)
  | ok (st : GameState)
deriving DecidableEq

/-- `game.rs`: `GameState::make_move` — terminal-status gate, validation, then
execution and the derived-field updates, in source order. -/
def GameState.make_move (s : GameState) (m : Move) : MoveOutcome :=
  match s.status with
  | .Checkmate _ => .err .GameOver s
  | .Stalemate => .err .GameOver s
  | .Draw => .err .GameOver s
  | _ =>
    match s.validate_move m with
    | none => .panic
    | some (.error e) => .err e s
    | some (.ok _) =>
      match s.execute_move m with
      | none => .panic
      | some s1 =>
        match s1.update_castling_rights m with
        | none => .panic
        | some s2 =>
          match s2.update_en_passant m with
          | none => .panic
          | some s3 =>
            match s3.update_clocks m with
            | none => .panic
            | some s4 =>
              match s4.switch_player.update_status with
              | none => .panic
              | some s5 => .ok s5

/-- `game.rs`: the promotion rank used by `GameState::get_legal_moves`. -/
def promotion_rank (color : Color) : Nat :=
  match color with | .White => 7 | .Black => 0

/-- The candidate move `get_legal_moves` builds for a source/destination pair:
`Move::new` plus the auto-detected castling and en-passant flags. -/
def GameState.candidate (s : GameState) (f t : Square) (piece : Piece) : Move :=
  let m := Move.new f t
  let m :=
    if piece.piece_type = PieceType.King ∧ (i8 t.file - i8 f.file).natAbs = 2 then
      { m with is_castling := true }
    else m
  if piece.piece_type = PieceType.Pawn ∧ some t = s.en_passant_target then
    { m with is_en_passant := true }
  else m

/-- The promotion expansion of `get_legal_moves`: a pawn move onto the
promotion rank becomes four moves, in the order Queen, Rook, Bishop, Knight. -/
def GameState.expand (t : Square) (piece : Piece) (m : Move) : List Move :=
  if piece.piece_type = PieceType.Pawn ∧ t.rank = promotion_rank piece.color then
    [PieceType.Queen, PieceType.Rook, PieceType.Bishop, PieceType.Knight].map
      fun promo => { m with promotion := some promo }
  else [m]

/-- The filter `get_legal_moves` applies to a candidate:
`is_legal_move && !would_leave_king_in_check`, short-circuited. -/
def GameState.keep (s : GameState) (piece : Piece) (m : Move) : Option Bool :=
  match s.is_legal_move m piece with
  | none => none
  | some false => some false
  | some true =>
    match s.would_leave_king_in_check m with
    | none => none
    | some c => some (!c)

/-- The inner destination loop of `game.rs`: `GameState::get_legal_moves`,
with `moves` as the accumulated push vector. -/
def GameState.glm_targets (s : GameState) (f : Square) (piece : Piece) :
    List Square → List Move → Option (List Move)
  | [], acc => some acc
  | t :: rest, acc =>
    let m := s.candidate f t piece
    match s.keep piece m with
    | none => none
    | some true => s.glm_targets f piece rest (acc ++ GameState.expand t piece m)
    | some false => s.glm_targets f piece rest acc

/-- The outer piece loop of `game.rs`: `GameState::get_legal_moves`. -/
def GameState.glm_pieces (s : GameState) :
    List (Square × Piece) → List Move → Option (List Move)
  | [], acc => some acc
  | (f, piece) :: rest, acc =>
    match s.glm_targets f piece scan_squares acc with
    | none => none
    | some acc2 => s.glm_pieces rest acc2

/-- `game.rs`: `GameState::get_legal_moves`. -/
def GameState.get_legal_moves (s : GameState) : Option (List Move) :=
  s.glm_pieces (s.board.get_pieces s.current_player) []

/-- The piece letter of `game.rs`: `GameState::to_fen` (uppercase for White). -/
def piece_fen_char (piece : Piece) : Char :=
  let c : Char :=
    match piece.piece_type with
    | .Pawn => 'p'
    | .Rook => 'r'
    | .Knight => 'n'
    | .Bishop => 'b'
    | .Queen => 'q'
    | .King => 'k'
  match piece.color with
  | .White => c.toUpper
  | .Black => c

/-- One rank of the FEN placement field (left to right, empty runs collapsed
to their decimal count). -/
def GameState.fen_rank (s : GameState) (rank : Nat) : String :=
  let step := fun (acc : String × Nat) (file : Nat) =>
    match s.board.get_piece ⟨file, rank⟩ with
    | some piece =>
      let flushed := if 0 < acc.2 then acc.1 ++ Nat.repr acc.2 else acc.1
      (flushed.push (piece_fen_char piece), 0)
    | none => (acc.1, acc.2 + 1)
  let r := (List.range 8).foldl step ("", 0)
  if 0 < r.2 then r.1 ++ Nat.repr r.2 else r.1

/-- `game.rs`: `GameState::to_fen` — placement from rank 8 down to rank 1,
then active colour, castling subset of `KQkq` (or `-`), en-passant target,
halfmove clock and fullmove number. -/
def GameState.to_fen (s : GameState) : String :=
  let placement :=
    String.intercalate "/" ((List.range 8).reverse.map fun rank => s.fen_rank rank)
  let active := match s.current_player with | .White => "w" | .Black => "b"
  let castling :=
    let c :=
      (if s.castling_rights.white_kingside then "K" else "") ++
      (if s.castling_rights.white_queenside then "Q" else "") ++
      (if s.castling_rights.black_kingside then "k" else "") ++
      (if s.castling_rights.black_queenside then "q" else "")
    if c = "" then "-" else c
  let ep :=
    match s.en_passant_target with
    | some target => target.to_algebraic
    | none => "-"
  placement ++ " " ++ active ++ " " ++ castling ++ " " ++ ep ++ " " ++
    Nat.repr s.halfmove_clock ++ " " ++ Nat.repr s.fullmove_number

end Chess

namespace Chess

/-- Projection of a successful outcome. -/
def MoveOutcome.state? : MoveOutcome → Option GameState
  | .ok s => some s
  | _ => none

/-- Projection of an error outcome. -/
def MoveOutcome.error? : MoveOutcome → Option ChessError
  | .err e _ => some e
  | _ => none

/-- Runs a sequence of moves, succeeding only if every one is accepted. -/
def GameState.apply_moves : GameState → List Move → Option GameState
  | s, [] => some s
  | s, m :: ms =>
    match s.make_move m with
    | .ok s2 => s2.apply_moves ms
    | _ => none

/-- Game states reachable from `new_game()` by accepted `make_move` calls. -/
inductive Reachable : GameState → Prop where
  | base : Reachable GameState.new
  | step {s : GameState} {m : Move} {s2 : GameState} :
      Reachable s → s.make_move m = .ok s2 → Reachable s2

/-- File 4 of a colour's back rank: the square `is_legal_castling` requires
the moving king to start from. -/
def home_four : Color → Square
  | .White => ⟨4, 0⟩
  | .Black => ⟨4, 7⟩

/-- Shape condition for the amended completeness claim: the move's flags agree
with the auto-detection `get_legal_moves` performs, and the promotion field is
empty except on a pawn move to the promotion rank, where it is one of the four
listed kinds. -/
def GameState.auto_flagged (s : GameState) (m : Move) : Bool :=
  match s.board.get_piece m.from_sq with
  | none => true
  | some p =>
    decide (m.is_castling =
        decide (p.piece_type = PieceType.King ∧
          (i8 m.to_sq.file - i8 m.from_sq.file).natAbs = 2)) &&
    decide (m.is_en_passant =
        decide (p.piece_type = PieceType.Pawn ∧ some m.to_sq = s.en_passant_target)) &&
    (if p.piece_type = PieceType.Pawn ∧ m.to_sq.rank = promotion_rank p.color then
      decide (m.promotion = some PieceType.Queen ∨ m.promotion = some PieceType.Rook ∨
        m.promotion = some PieceType.Bishop ∨ m.promotion = some PieceType.Knight)
    else decide (m.promotion = none))

/-- Left-to-right effectful flat-map over `Option`, aborting at the first
`none` — the shape of a nested push loop whose body can panic. -/
def flat_map_opt {α β : Type} (g : α → Option (List β)) : List α → Option (List β)
  | [] => some []
  | x :: xs =>
    match g x with
    | none => none
    | some ys =>
      match flat_map_opt g xs with
      | none => none
      | some rest => some (ys ++ rest)

/-- Candidate move as §4.5 of the spec words it: `Move::new(from, to)` with
`is_castling` auto-set when a king's candidate displacement is exactly two
files, and `is_en_passant` auto-set when a pawn's candidate destination equals
the current en-passant target. -/
def spec_candidate (s : GameState) (f t : Square) (piece : Piece) : Move :=
  { from_sq := f, to_sq := t, promotion := none,
    is_castling :=
      decide (piece.piece_type = PieceType.King ∧ (i8 t.file - i8 f.file).natAbs = 2),
    is_en_passant :=
      decide (piece.piece_type = PieceType.Pawn ∧ some t = s.en_passant_target) }

/-- Promotion expansion as the spec words it: a pawn move landing on the
farthest rank expands into four results, one per promotion kind, in the fixed
order Queen, Rook, Bishop, Knight. -/
def spec_expand (t : Square) (piece : Piece) (m : Move) : List Move :=
  if piece.piece_type = PieceType.Pawn ∧ t.rank = promotion_rank piece.color then
    [{ m with promotion := some PieceType.Queen },
     { m with promotion := some PieceType.Rook },
     { m with promotion := some PieceType.Bishop },
     { m with promotion := some PieceType.Knight }]
  else [m]

/-- The moves one piece/destination pair contributes to the enumeration: the
candidate, kept iff it passes the legality and king-safety pipeline, expanded
at the promotion rank. -/
def spec_target (s : GameState) (f : Square) (piece : Piece) (t : Square) :
    Option (List Move) :=
  let m := spec_candidate s f t piece
  match s.keep piece m with
  | none => none
  | some true => some (spec_expand t piece m)
  | some false => some []

/-- Legal-move enumeration as §4.5 of the spec describes the output order:
grouped by owned piece in board-scan order (rank-major, file-minor), each
piece's destinations in rank-major, file-minor order, promotion moves expanded
in place. -/
def spec_legal_moves (s : GameState) : Option (List Move) :=
  flat_map_opt
    (fun fp => flat_map_opt (spec_target s fp.1 fp.2) scan_squares)
    (s.board.get_pieces s.current_player)

end Chess

namespace Chess

lemma Square.eq_iff {a b : Square} : a = b ↔ a.file = b.file ∧ a.rank = b.rank := by
  cases a; cases b; simp

lemma Board.get_piece_valid {b : Board} {sq : Square} {p : Piece}
    (h : b.get_piece sq = some p) : sq.is_valid := by
  by_cases hv : sq.is_valid
  · exact hv
  · unfold Board.get_piece at h
    rw [dif_neg hv] at h
    cases h

lemma Board.get_piece_set (b : Board) (sq : Square) (p : Piece) (x : Square) :
    (b.set_piece sq p).get_piece x =
      if sq.is_valid ∧ x = sq then some p else b.get_piece x := by
  unfold Board.set_piece Board.get_piece
  by_cases hs : sq.is_valid
  · rw [if_pos hs]
    by_cases hx : x.is_valid
    · rw [dif_pos hx]
      by_cases hxs : x = sq
      · subst hxs
        simp [hs]
      · have hne : ¬(x.rank = sq.rank ∧ x.file = sq.file) := by
          intro hfr
          exact hxs (Square.eq_iff.mpr ⟨hfr.2, hfr.1⟩)
        simp only [hne, if_false, dif_pos hx]
        rw [if_neg (by tauto)]
    · rw [dif_neg hx, if_neg (fun hc : sq.is_valid ∧ x = sq => hx (hc.2 ▸ hs)), dif_neg hx]
  · rw [if_neg hs, if_neg (by tauto)]

lemma Board.get_piece_remove (b : Board) (sq : Square) (x : Square) :
    (b.remove_piece sq).1.get_piece x =
      if sq.is_valid ∧ x = sq then none else b.get_piece x := by
  unfold Board.remove_piece Board.get_piece
  by_cases hs : sq.is_valid
  · rw [if_pos hs]
    by_cases hx : x.is_valid
    · rw [dif_pos hx]
      by_cases hxs : x = sq
      · subst hxs
        simp [hs]
      · have hne : ¬(x.rank = sq.rank ∧ x.file = sq.file) := by
          intro hfr
          exact hxs (Square.eq_iff.mpr ⟨hfr.2, hfr.1⟩)
        simp only [hne, if_false, dif_pos hx]
        rw [if_neg (by tauto)]
    · rw [dif_neg hx, if_neg (fun hc : sq.is_valid ∧ x = sq => hx (hc.2 ▸ hs)), dif_neg hx]
  · rw [if_neg hs, if_neg (by tauto)]

/-- A square other than the destination holds, after `move_piece`, either its
old piece or nothing. -/
lemma Board.move_piece_get_other (b : Board) (f t x : Square) (hx : x ≠ t) :
    (b.move_piece f t).1.get_piece x = b.get_piece x ∨
      (b.move_piece f t).1.get_piece x = none := by
  unfold Board.move_piece
  cases hr : (b.remove_piece f).2 with
  | none =>
    simp only [hr]
    rw [Board.get_piece_remove]
    split
    · right; rfl
    · left; rfl
  | some piece =>
    simp only [hr]
    rw [Board.get_piece_set, if_neg (by intro hc; exact hx hc.2)]
    rw [Board.get_piece_remove]
    split
    · right; rfl
    · rw [Board.get_piece_remove]
      split
      · right; rfl
      · left; rfl

/-- C1: Starting from `new_game()` with no moves made, `to_fen()` is claimed
to return exactly `"rnbqkbnr/pppppppp/8/8/8/8/PPPPPPPP/RNBQKBNR w KQkq - 0 1"`.
The code instead returns `"rnbkqbnr/.../RNBKQBNR ..."`:
`setup_starting_position` places each king on file 3 (d-file) and each queen on
file 4 (e-file), so the placement field differs from the claimed string. -/
theorem c1_initial_fen :
    GameState.new.to_fen = "rnbkqbnr/pppppppp/8/8/8/8/PPPPPPPP/RNBKQBNR w KQkq - 0 1" ∧
    GameState.new.to_fen ≠ "rnbqkbnr/pppppppp/8/8/8/8/PPPPPPPP/RNBQKBNR w KQkq - 0 1" := by
  constructor
  · rfl
  · decide

/-- C2: From `new_game()`, the claimed fool's mate f2f3, e7e5, g2g4, d8h4 is
said to succeed at every step and end in `Checkmate(Black)`.  In the code the
first three moves succeed, but `d8` (file 3, rank 7) holds the black *king*
(the starting position swaps king and queen), so the fourth move is rejected
with `InvalidMove` instead of delivering mate. -/
theorem c2_fools_mate_rejected :
    ((GameState.new.apply_moves
        [⟨⟨5, 1⟩, ⟨5, 2⟩, none, false, false⟩, ⟨⟨4, 6⟩, ⟨4, 4⟩, none, false, false⟩,
         ⟨⟨6, 1⟩, ⟨6, 3⟩, none, false, false⟩]).bind fun s =>
      (s.make_move ⟨⟨3, 7⟩, ⟨7, 3⟩, none, false, false⟩).error?) =
    some (.InvalidMove "Illegal move for this piece") := by
  decide

/-- C4: whenever `make_move` returns an error, the entire game state the
caller is left with is identical to the state before the call — every error
return in the source happens before any mutation. -/
theorem c4_error_preserves_state (s : GameState) (m : Move) (e : ChessError)
    (t : GameState) (h : s.make_move m = .err e t) : t = s := by
  unfold GameState.make_move at h
  split at h
  · injection h with h1 h2; exact h2.symm
  · injection h with h1 h2; exact h2.symm
  · injection h with h1 h2; exact h2.symm
  · split at h
    · cases h
    · injection h with h1 h2; exact h2.symm
    · split at h
      · cases h
      · split at h
        · cases h
        · split at h
          · cases h
          · split at h
            · cases h
            · split at h
              · cases h
              · cases h

/-- Witness for C4: at `new_game()`, moving from the empty square a4 fails
with `InvalidMove`, and the state carried by the error is the original one. -/
theorem c4_witness :
    ∃ e t, GameState.new.make_move ⟨⟨0, 3⟩, ⟨0, 4⟩, none, false, false⟩ = .err e t ∧
      t = GameState.new := by
  have h : GameState.new.make_move ⟨⟨0, 3⟩, ⟨0, 4⟩, none, false, false⟩ =
      .err (.InvalidMove "No piece at source square") GameState.new := by decide
  exact ⟨_, _, h, c4_error_preserves_state _ _ _ _ h⟩

/-- C7: `Square::new` is total and fails exactly outside the board, but
`Square::from_algebraic` is *not* total: on the one-character, two-byte string
"é" (U+00E9) the length test (UTF-8 bytes) passes, `chars[0] as u8` is 233, the
subtraction succeeds, and the `chars[1]` index panics — modelled by the outer
`none` — where the claim promises `None`. -/
theorem c7_square_construction :
    (∀ file rank, Square.new file rank = none ↔ 8 ≤ file ∨ 8 ≤ rank) ∧
    Square.from_algebraic [Char.ofNat 233] = none := by
  constructor
  · intro file rank
    by_cases h : file < 8 ∧ rank < 8
    · rw [Square.new, if_pos h]
      exact iff_of_false (by simp) (by omega)
    · rw [Square.new, if_neg h]
      exact iff_of_true rfl (by omega)
  · decide

/-- A successful `make_move` decomposes into its pipeline stages. -/
lemma make_move_ok (s : GameState) (m : Move) (sf : GameState)
    (h : s.make_move m = .ok sf) :
    ∃ s1 s2 s3 s4, s.validate_move m = some (.ok ()) ∧ s.execute_move m = some s1 ∧
      s1.update_castling_rights m = some s2 ∧ s2.update_en_passant m = some s3 ∧
      s3.update_clocks m = some s4 ∧ s4.switch_player.update_status = some sf := by
  unfold GameState.make_move at h
  split at h
  · cases h
  · cases h
  · cases h
  · split at h
    · cases h
    · cases h
    · split at h
      · cases h
      · split at h
        · cases h
        · split at h
          · cases h
          · split at h
            · cases h
            · split at h
              · cases h
              · rename_i a hv x4 s1 hx x3 s2 h2 x2 s3 h3 x1 s4 h4 x0 s5 h5
                injection h with h6
                exact ⟨s1, s2, s3, s4, hv, hx, h2, h3, h4, h6 ▸ h5⟩

/-- `execute_move` only changes the board. -/
lemma execute_move_fields (s : GameState) (m : Move) (s1 : GameState)
    (h : s.execute_move m = some s1) :
    s1.current_player = s.current_player ∧ s1.castling_rights = s.castling_rights ∧
    s1.en_passant_target = s.en_passant_target ∧ s1.halfmove_clock = s.halfmove_clock ∧
    s1.fullmove_number = s.fullmove_number ∧ s1.status = s.status := by
  unfold GameState.execute_move at h
  simp only [] at h
  repeat' split at h
  all_goals try cases h
  all_goals exact ⟨rfl, rfl, rfl, rfl, rfl, rfl⟩

/-- `update_castling_rights` requires a piece at the destination and only
changes the castling rights. -/
lemma update_castling_rights_fields (s : GameState) (m : Move) (s2 : GameState)
    (h : s.update_castling_rights m = some s2) :
    (∃ q, s.board.get_piece m.to_sq = some q) ∧
    s2.board = s.board ∧ s2.current_player = s.current_player ∧
    s2.en_passant_target = s.en_passant_target ∧ s2.halfmove_clock = s.halfmove_clock ∧
    s2.fullmove_number = s.fullmove_number ∧ s2.status = s.status := by
  unfold GameState.update_castling_rights at h
  split at h
  · cases h
  · rename_i q hq
    refine ⟨⟨q, hq⟩, ?_⟩
    simp only [] at h
    repeat' split at h
    all_goals try cases h
    all_goals exact ⟨rfl, rfl, rfl, rfl, rfl, rfl⟩

/-- `update_en_passant` only changes the en-passant target. -/
lemma update_en_passant_fields (s : GameState) (m : Move) (s3 : GameState)
    (h : s.update_en_passant m = some s3) :
    s3.board = s.board ∧ s3.current_player = s.current_player ∧
    s3.castling_rights = s.castling_rights ∧ s3.halfmove_clock = s.halfmove_clock ∧
    s3.fullmove_number = s.fullmove_number ∧ s3.status = s.status := by
  unfold GameState.update_en_passant at h
  simp only [] at h
  repeat' split at h
  all_goals try cases h
  all_goals exact ⟨rfl, rfl, rfl, rfl, rfl, rfl⟩

/-- `update_clocks` requires a piece at the destination, sets the halfmove
clock from that piece and the en-passant flag, and changes nothing else. -/
lemma update_clocks_spec (s : GameState) (m : Move) (s4 : GameState)
    (h : s.update_clocks m = some s4) :
    ∃ p, s.board.get_piece m.to_sq = some p ∧
      s4.halfmove_clock =
        (if p.piece_type = PieceType.Pawn ∨ m.is_en_passant = true then 0
         else s.halfmove_clock + 1) ∧
      s4.board = s.board ∧ s4.current_player = s.current_player ∧
      s4.castling_rights = s.castling_rights ∧
      s4.en_passant_target = s.en_passant_target ∧
      s4.fullmove_number = s.fullmove_number ∧ s4.status = s.status := by
  unfold GameState.update_clocks at h
  split at h
  · cases h
  · rename_i p hp
    refine ⟨p, hp, ?_⟩
    split at h
    · rename_i hcond
      injection h with h1
      rw [← h1, if_pos (by tauto)]
      exact ⟨rfl, rfl, rfl, rfl, rfl, rfl, rfl⟩
    · rename_i hcond
      injection h with h1
      rw [← h1, if_neg (by tauto)]
      exact ⟨rfl, rfl, rfl, rfl, rfl, rfl, rfl⟩

/-- `switch_player` only changes the side to move and the fullmove number. -/
lemma switch_player_fields (s : GameState) :
    s.switch_player.board = s.board ∧ s.switch_player.castling_rights = s.castling_rights ∧
    s.switch_player.en_passant_target = s.en_passant_target ∧
    s.switch_player.halfmove_clock = s.halfmove_clock ∧
    s.switch_player.status = s.status := by
  unfold GameState.switch_player
  simp only []
  split
  · exact ⟨rfl, rfl, rfl, rfl, rfl⟩
  · exact ⟨rfl, rfl, rfl, rfl, rfl⟩

/-- `update_status` only changes the status. -/
lemma update_status_fields (s : GameState) (sf : GameState)
    (h : s.update_status = some sf) :
    sf.board = s.board ∧ sf.current_player = s.current_player ∧
    sf.castling_rights = s.castling_rights ∧ sf.en_passant_target = s.en_passant_target ∧
    sf.halfmove_clock = s.halfmove_clock ∧ sf.fullmove_number = s.fullmove_number := by
  unfold GameState.update_status at h
  simp only [] at h
  repeat' split at h
  all_goals try cases h
  all_goals exact ⟨rfl, rfl, rfl, rfl, rfl, rfl⟩

/-- A halfmove clock at 50 or above forces the status computed by
`update_status` to `Draw`. -/
lemma update_status_draw (s : GameState) (sf : GameState)
    (h : s.update_status = some sf) (h50 : 50 ≤ s.halfmove_clock) : sf.status = .Draw := by
  unfold GameState.update_status at h
  simp only [] at h
  repeat' split at h
  all_goals try cases h
  all_goals simp only [if_pos h50]

lemma Board.get_piece_invalid (b : Board) (sq : Square) (h : ¬ sq.is_valid) :
    b.get_piece sq = none := dif_neg h

lemma state_isSome {o : MoveOutcome} (h : o.state?.isSome = true) : ∃ sf, o = .ok sf := by
  cases o with
  | ok sf => exact ⟨sf, rfl⟩
  | panic => simp [MoveOutcome.state?] at h
  | err e t => simp [MoveOutcome.state?] at h

/-- A successful validation yields the mover's piece, of the side to move,
with the move geometrically legal and king-safe. -/
lemma validate_ok_facts (s : GameState) (m : Move)
    (h : s.validate_move m = some (.ok ())) :
    ∃ p, s.board.get_piece m.from_sq = some p ∧ p.color = s.current_player ∧
      s.is_legal_move m p = some true ∧ s.would_leave_king_in_check m = some false := by
  unfold GameState.validate_move at h
  split at h
  · cases h
  · rename_i p hp
    split at h
    · cases h
    · rename_i hcol
      split at h
      · cases h
      · cases h
      · rename_i hleg
        split at h
        · cases h
        · cases h
        · rename_i hwl
          exact ⟨p, hp, not_not.mp hcol, hleg, hwl⟩

/-- On a non-castling move carrying a promotion, `execute_move` leaves the
promoted piece (of the mover's colour) on the destination square whenever that
square is on the board. -/
lemma execute_promo_board (s : GameState) (m : Move) (k : PieceType) (p : Piece)
    (s1 : GameState) (hc : m.is_castling = false) (hk : m.promotion = some k)
    (hp : s.board.get_piece m.from_sq = some p) (h : s.execute_move m = some s1) :
    s1.board.get_piece m.to_sq =
      if m.to_sq.is_valid then some ⟨k, p.color⟩ else none := by
  unfold GameState.execute_move at h
  rw [hp] at h
  simp only [hc, hk, Bool.false_eq_true, if_false] at h
  split at h
  · cases h
  · cases h
    rw [Board.get_piece_set]
    by_cases hval : m.to_sq.is_valid
    · rw [if_pos ⟨hval, rfl⟩, if_pos hval]
    · rw [if_neg (by tauto), if_neg hval, Board.get_piece_invalid _ _ hval]

/-- C6: after every accepted `make_move` whose resulting halfmove clock is at
least 50, the resulting status is `Draw`, regardless of check or mobility:
`update_status` overrides the computed status with `Draw` whenever the clock
reaches 50. -/
theorem c6_fifty_move_draw (s : GameState) (m : Move) (sf : GameState)
    (h : s.make_move m = .ok sf) (h50 : 50 ≤ sf.halfmove_clock) : sf.status = .Draw := by
  obtain ⟨s1, s2, s3, s4, hv, hx, h2, h3, h4, h5⟩ := make_move_ok s m sf h
  have hfc : sf.halfmove_clock = s4.switch_player.halfmove_clock :=
    (update_status_fields _ _ h5).2.2.2.2.1
  exact update_status_draw _ _ h5 (hfc ▸ h50)

/-- Witness for C6: in a kings-only position with halfmove clock 49 and no
check, White's quiet king move d1–e1 is accepted, the clock reaches 50, and
the status is `Draw` even though Black has legal moves and is not in check. -/
theorem c6_witness :
    ∃ sf, (⟨(Board.empty.set_piece ⟨3, 0⟩ ⟨.King, .White⟩).set_piece ⟨3, 7⟩ ⟨.King, .Black⟩,
        .White, ⟨false, false, false, false⟩, none, 49, 40, .InProgress⟩ : GameState).make_move
          ⟨⟨3, 0⟩, ⟨4, 0⟩, none, false, false⟩ = .ok sf ∧
      50 ≤ sf.halfmove_clock ∧ sf.status = .Draw := by
  obtain ⟨sf, hsf⟩ := state_isSome (o :=
    (⟨(Board.empty.set_piece ⟨3, 0⟩ ⟨.King, .White⟩).set_piece ⟨3, 7⟩ ⟨.King, .Black⟩,
        .White, ⟨false, false, false, false⟩, none, 49, 40, .InProgress⟩ : GameState).make_move
          ⟨⟨3, 0⟩, ⟨4, 0⟩, none, false, false⟩) (by decide)
  have hclk : sf.halfmove_clock = 50 := by
    have hmap : ((⟨(Board.empty.set_piece ⟨3, 0⟩ ⟨.King, .White⟩).set_piece ⟨3, 7⟩
          ⟨.King, .Black⟩, .White, ⟨false, false, false, false⟩, none, 49, 40,
          .InProgress⟩ : GameState).make_move
            ⟨⟨3, 0⟩, ⟨4, 0⟩, none, false, false⟩).state?.map
          (fun t => t.halfmove_clock) = some 50 := by decide
    rw [hsf] at hmap
    simpa [MoveOutcome.state?] using hmap
  exact ⟨sf, hsf, by omega, c6_fifty_move_draw _ _ _ hsf (by omega)⟩

/-- C5 counterexample: from `new_game()`, the pawn move a2–a3 carrying
`promotion = Some(Queen)` is accepted (validation never reads the promotion
field), the moved piece is a pawn, yet the resulting halfmove clock is 1, not
0: `update_clocks` inspects the piece at the destination *after* the
promotion replaced it with a queen. -/
theorem c5_counterexample :
    GameState.new.halfmove_clock = 0 ∧
    GameState.new.board.get_piece ⟨0, 1⟩ = some ⟨.Pawn, .White⟩ ∧
    ((GameState.new.make_move ⟨⟨0, 1⟩, ⟨0, 2⟩, some .Queen, false, false⟩).state?.map
      (fun sf => sf.halfmove_clock)) = some 1 := by
  refine ⟨rfl, by decide, by decide⟩

/-- C5 amended: after an accepted move, the halfmove clock is 0 exactly when
the piece standing on the destination square *after execution* is a pawn or
the move carried the en-passant flag, and is the previous value plus one
otherwise. -/
theorem c5_amended (s : GameState) (m : Move) (sf : GameState)
    (h : s.make_move m = .ok sf) :
    ∃ p, sf.board.get_piece m.to_sq = some p ∧
      sf.halfmove_clock =
        (if p.piece_type = PieceType.Pawn ∨ m.is_en_passant = true then 0
         else s.halfmove_clock + 1) := by
  obtain ⟨s1, s2, s3, s4, hv, hx, h2, h3, h4, h5⟩ := make_move_ok s m sf h
  obtain ⟨p, hp3, hclk, hb4, _, _, _, _, _⟩ := update_clocks_spec s3 m s4 h4
  have hb3 := (update_en_passant_fields s2 m s3 h3).1
  have hb2 := (update_castling_rights_fields s1 m s2 h2).2.1
  have hsb : sf.board = s3.board := by
    rw [(update_status_fields _ _ h5).1, (switch_player_fields s4).1, hb4]
  have hclk3 : s3.halfmove_clock = s.halfmove_clock := by
    rw [(update_en_passant_fields s2 m s3 h3).2.2.2.1,
        (update_castling_rights_fields s1 m s2 h2).2.2.2.2.1,
        (execute_move_fields s m s1 hx).2.2.2.1]
  have hfclk : sf.halfmove_clock = s4.halfmove_clock := by
    rw [(update_status_fields _ _ h5).2.2.2.2.1, (switch_player_fields s4).2.2.2.1]
  refine ⟨p, ?_, ?_⟩
  · rw [hsb]
    exact hp3
  · rw [hfclk, hclk, hclk3]

/-- Witness for the amended C5: the accepted promotion-carrying pawn move
a2–a3 from `new_game()` leaves a queen on a3, so the clock formula yields the
increment branch. -/
theorem c5_amended_witness :
    ∃ sf p, GameState.new.make_move ⟨⟨0, 1⟩, ⟨0, 2⟩, some .Queen, false, false⟩ = .ok sf ∧
      sf.board.get_piece ⟨0, 2⟩ = some p ∧
      sf.halfmove_clock =
        (if p.piece_type = PieceType.Pawn ∨
            (⟨⟨0, 1⟩, ⟨0, 2⟩, some .Queen, false, false⟩ : Move).is_en_passant = true then 0
         else GameState.new.halfmove_clock + 1) := by
  obtain ⟨sf, hsf⟩ := state_isSome (o :=
    GameState.new.make_move ⟨⟨0, 1⟩, ⟨0, 2⟩, some .Queen, false, false⟩) (by decide)
  obtain ⟨p, hp, hclk⟩ := c5_amended _ _ _ hsf
  exact ⟨sf, p, hsf, hp, hclk⟩

/-- C10: validation never inspects the promotion field.  Concretely, from
`new_game()` the pawn move a2–a3 (destination not the farthest rank) carrying
`promotion = Some(Queen)` is accepted and leaves a white queen on a3; and in
general, every accepted non-castling move carrying `promotion = Some(k)`
leaves a piece of kind `k` of the mover's colour on its destination square. -/
theorem c10_promotion_applied :
    ((GameState.new.make_move ⟨⟨0, 1⟩, ⟨0, 2⟩, some .Queen, false, false⟩).state?.map
      (fun sf => sf.board.get_piece ⟨0, 2⟩)) = some (some ⟨.Queen, .White⟩) ∧
    ∀ (s : GameState) (m : Move) (k : PieceType) (sf : GameState),
      m.is_castling = false → m.promotion = some k →
      s.make_move m = .ok sf →
      sf.board.get_piece m.to_sq = some ⟨k, s.current_player⟩ := by
  constructor
  · decide
  · intro s m k sf hc hk h
    obtain ⟨s1, s2, s3, s4, hv, hx, h2, h3, h4, h5⟩ := make_move_ok s m sf h
    obtain ⟨p, hp, hcol, _, _⟩ := validate_ok_facts s m hv
    have hexec := execute_promo_board s m k p s1 hc hk hp hx
    obtain ⟨⟨q, hq⟩, hb1, _⟩ := update_castling_rights_fields s1 m s2 h2
    have hval : m.to_sq.is_valid := by
      by_contra hnv
      rw [hexec, if_neg hnv] at hq
      cases hq
    obtain ⟨pc, hpc, hclkc, hb4, _⟩ := update_clocks_spec s3 m s4 h4
    have hboard : sf.board = s1.board := by
      rw [(update_status_fields _ _ h5).1, (switch_player_fields s4).1, hb4,
          (update_en_passant_fields s2 m s3 h3).1, hb1]
    rw [hboard, hexec, if_pos hval, hcol]

/-- Witness for C10's general part, at the concrete accepted promotion-carrying
move a2–a3 from `new_game()`. -/
theorem c10_witness :
    ∃ sf, GameState.new.make_move ⟨⟨0, 1⟩, ⟨0, 2⟩, some .Queen, false, false⟩ = .ok sf ∧
      sf.board.get_piece ⟨0, 2⟩ = some ⟨.Queen, GameState.new.current_player⟩ := by
  obtain ⟨sf, hsf⟩ := state_isSome (o :=
    GameState.new.make_move ⟨⟨0, 1⟩, ⟨0, 2⟩, some .Queen, false, false⟩) (by decide)
  exact ⟨sf, hsf, c10_promotion_applied.2 _ _ _ _ rfl rfl hsf⟩

/-- The candidate `get_legal_moves` builds coincides with the spec's wording:
its flags are exactly the decidable auto-detection conditions. -/
lemma candidate_eq_spec (s : GameState) (f t : Square) (piece : Piece) :
    s.candidate f t piece = spec_candidate s f t piece := by
  unfold GameState.candidate spec_candidate Move.new
  by_cases h1 : piece.piece_type = PieceType.King ∧ (i8 t.file - i8 f.file).natAbs = 2 <;>
    by_cases h2 : piece.piece_type = PieceType.Pawn ∧ some t = s.en_passant_target <;>
      simp [h1, h2]

/-- The promotion expansion of `get_legal_moves` coincides with the spec's
fixed Queen, Rook, Bishop, Knight order. -/
lemma expand_eq_spec (t : Square) (piece : Piece) (m : Move) :
    GameState.expand t piece m = spec_expand t piece m := by
  unfold GameState.expand spec_expand
  split <;> rfl

lemma flat_map_opt_cons {α β : Type} (g : α → Option (List β)) (x : α) (xs : List α) :
    flat_map_opt g (x :: xs) =
      match g x with
      | none => none
      | some ys =>
        match flat_map_opt g xs with
        | none => none
        | some rest => some (ys ++ rest) := rfl

lemma spec_target_eq (s : GameState) (f : Square) (piece : Piece) (t : Square) :
    spec_target s f piece t =
      match s.keep piece (s.candidate f t piece) with
      | none => none
      | some true => some (spec_expand t piece (s.candidate f t piece))
      | some false => some [] := by
  unfold spec_target
  rw [candidate_eq_spec]

lemma glm_targets_eq_spec (s : GameState) (f : Square) (piece : Piece) :
    ∀ (ts : List Square) (acc : List Move),
      s.glm_targets f piece ts acc =
        match flat_map_opt (spec_target s f piece) ts with
        | none => none
        | some l => some (acc ++ l)
  | [], acc => by simp [GameState.glm_targets, flat_map_opt]
  | t :: rest, acc => by
    rw [GameState.glm_targets, flat_map_opt_cons]
    simp only [spec_target_eq]
    cases hk : s.keep piece (s.candidate f t piece) with
    | none => simp only [hk]
    | some b =>
      cases b with
      | true =>
        simp only [hk]
        rw [glm_targets_eq_spec s f piece rest
          (acc ++ GameState.expand t piece (s.candidate f t piece))]
        cases hr : flat_map_opt (spec_target s f piece) rest with
        | none => simp only [hr]
        | some l =>
          simp only [hr]
          rw [expand_eq_spec, List.append_assoc]
      | false =>
        simp only [hk]
        rw [glm_targets_eq_spec s f piece rest acc]
        cases hr : flat_map_opt (spec_target s f piece) rest with
        | none => simp only [hr]
        | some l =>
          simp only [hr, List.nil_append]

lemma glm_pieces_eq_spec (s : GameState) :
    ∀ (ps : List (Square × Piece)) (acc : List Move),
      s.glm_pieces ps acc =
        match flat_map_opt
            (fun fp => flat_map_opt (spec_target s fp.1 fp.2) scan_squares) ps with
        | none => none
        | some l => some (acc ++ l)
  | [], acc => by simp [GameState.glm_pieces, flat_map_opt]
  | (f, piece) :: rest, acc => by
    rw [GameState.glm_pieces, flat_map_opt_cons]
    simp only []
    rw [glm_targets_eq_spec s f piece scan_squares acc]
    cases hk : flat_map_opt (spec_target s f piece) scan_squares with
    | none => simp only [hk]
    | some ys =>
      simp only [hk]
      rw [glm_pieces_eq_spec s rest (acc ++ ys)]
      cases hr : flat_map_opt
          (fun fp => flat_map_opt (spec_target s fp.1 fp.2) scan_squares) rest with
      | none => simp only [hr]
      | some l =>
        simp only [hr, List.append_assoc]

/-- The source enumeration equals the spec-shaped one. -/
lemma legal_moves_eq_spec (s : GameState) : s.get_legal_moves = spec_legal_moves s := by
  unfold GameState.get_legal_moves spec_legal_moves
  rw [glm_pieces_eq_spec]
  cases hr : flat_map_opt
      (fun fp => flat_map_opt (spec_target s fp.1 fp.2) scan_squares)
      (s.board.get_pieces s.current_player) with
  | none => rfl
  | some l => simp

/-- C8: `get_legal_moves` returns exactly the spec-ordered enumeration —
grouped by moving piece in rank-major, file-minor board-scan order, each
piece's destinations in rank-major, file-minor order, and each pawn move onto
the farthest rank expanded in place into four moves with promotion kinds in
the fixed order Queen, Rook, Bishop, Knight. -/
theorem c8_legal_moves_order (s : GameState) : s.get_legal_moves = spec_legal_moves s :=
  legal_moves_eq_spec s

/-- Membership extraction for `flat_map_opt`: a successful run contains the
contribution of every element. -/
lemma flat_map_opt_mem {α β : Type} {g : α → Option (List β)} :
    ∀ {xs : List α} {L : List β}, flat_map_opt g xs = some L → ∀ {x : α}, x ∈ xs →
      ∃ ys, g x = some ys ∧ ∀ a ∈ ys, a ∈ L
  | [], L, h, x, hx => by cases hx
  | y :: xs, L, h, x, hx => by
    rw [flat_map_opt] at h
    cases hg : g y with
    | none => rw [hg] at h; cases h
    | some ys0 =>
      rw [hg] at h
      cases hr : flat_map_opt g xs with
      | none => rw [hr] at h; cases h
      | some rest =>
        rw [hr] at h
        injection h with h1
        subst h1
        cases List.mem_cons.mp hx with
        | inl hxy =>
          subst hxy
          exact ⟨ys0, hg, fun a ha => List.mem_append_left _ ha⟩
        | inr hxs =>
          obtain ⟨ys, hys, hsub⟩ := flat_map_opt_mem hr hxs
          exact ⟨ys, hys, fun a ha => List.mem_append_right _ (hsub a ha)⟩

lemma get_pieces_aux (b : Board) (color : Color) :
    ∀ (l : List Square) (acc : List (Square × Piece)),
      l.foldl (fun acc sq =>
        match b.get_piece sq with
        | some piece => if piece.color = color then acc ++ [(sq, piece)] else acc
        | none => acc) acc =
      acc ++ l.filterMap (fun sq =>
        match b.get_piece sq with
        | some piece => if piece.color = color then some (sq, piece) else none
        | none => none)
  | [], acc => by simp
  | sq :: l, acc => by
    rw [List.foldl_cons, get_pieces_aux b color l, List.filterMap_cons]
    cases hg : b.get_piece sq with
    | none => simp
    | some piece =>
      by_cases hc : piece.color = color <;> simp [hc]

/-- `get_pieces` as a filter over the scan order. -/
lemma get_pieces_eq (b : Board) (color : Color) :
    b.get_pieces color = scan_squares.filterMap (fun sq =>
      match b.get_piece sq with
      | some piece => if piece.color = color then some (sq, piece) else none
      | none => none) := by
  unfold Board.get_pieces
  rw [get_pieces_aux]
  simp

lemma mem_scan_squares {sq : Square} (h : sq.is_valid) : sq ∈ scan_squares := by
  obtain ⟨hf, hr⟩ := h
  cases sq with
  | mk file rank =>
    unfold scan_squares
    rw [List.mem_flatMap]
    exact ⟨rank, List.mem_range.mpr hr, List.mem_map.mpr ⟨file, List.mem_range.mpr hf, rfl⟩⟩

lemma mem_get_pieces {b : Board} {sq : Square} {p : Piece} {color : Color}
    (hp : b.get_piece sq = some p) (hc : p.color = color) :
    (sq, p) ∈ b.get_pieces color := by
  rw [get_pieces_eq]
  refine List.mem_filterMap.mpr ⟨sq, mem_scan_squares (Board.get_piece_valid hp), ?_⟩
  simp [hp, hc]

/-- `is_legal_move` never reads the promotion field. -/
lemma is_legal_move_promo (s : GameState) (f t : Square) (pr1 pr2 : Option PieceType)
    (c e : Bool) (piece : Piece) :
    s.is_legal_move ⟨f, t, pr1, c, e⟩ piece = s.is_legal_move ⟨f, t, pr2, c, e⟩ piece := rfl

/-- `would_leave_king_in_check` never reads the promotion field. -/
lemma wlkic_promo (s : GameState) (f t : Square) (pr1 pr2 : Option PieceType) (c e : Bool) :
    s.would_leave_king_in_check ⟨f, t, pr1, c, e⟩ =
      s.would_leave_king_in_check ⟨f, t, pr2, c, e⟩ := rfl

lemma auto_flagged_spec (s : GameState) (m : Move) (p : Piece)
    (hp : s.board.get_piece m.from_sq = some p) (h : s.auto_flagged m = true) :
    m.is_castling =
      decide (p.piece_type = PieceType.King ∧
        (i8 m.to_sq.file - i8 m.from_sq.file).natAbs = 2) ∧
    m.is_en_passant =
      decide (p.piece_type = PieceType.Pawn ∧ some m.to_sq = s.en_passant_target) ∧
    (if p.piece_type = PieceType.Pawn ∧ m.to_sq.rank = promotion_rank p.color
     then m.promotion = some PieceType.Queen ∨ m.promotion = some PieceType.Rook ∨
          m.promotion = some PieceType.Bishop ∨ m.promotion = some PieceType.Knight
     else m.promotion = none) := by
  unfold GameState.auto_flagged at h
  rw [hp] at h
  simp only [Bool.and_eq_true, decide_eq_true_eq] at h
  obtain ⟨⟨ha, hb⟩, hc⟩ := h
  refine ⟨ha, hb, ?_⟩
  split at hc
  · rename_i hcond
    rw [if_pos hcond]
    exact of_decide_eq_true hc
  · rename_i hcond
    rw [if_neg hcond]
    exact of_decide_eq_true hc

/-- Under matching flags, the generator's candidate is the submitted move with
the promotion field cleared. -/
lemma candidate_of_flags (s : GameState) (m : Move) (p : Piece)
    (h1 : m.is_castling =
      decide (p.piece_type = PieceType.King ∧
        (i8 m.to_sq.file - i8 m.from_sq.file).natAbs = 2))
    (h2 : m.is_en_passant =
      decide (p.piece_type = PieceType.Pawn ∧ some m.to_sq = s.en_passant_target)) :
    s.candidate m.from_sq m.to_sq p =
      ⟨m.from_sq, m.to_sq, none, m.is_castling, m.is_en_passant⟩ := by
  rw [candidate_eq_spec]
  unfold spec_candidate
  rw [← h1, ← h2]

lemma keep_eq_some (s : GameState) (p : Piece) (cm : Move) (b : Bool)
    (h : s.keep p cm = some b) :
    (s.is_legal_move cm p = some false ∧ b = false) ∨
    (∃ c, s.is_legal_move cm p = some true ∧
      s.would_leave_king_in_check cm = some c ∧ b = !c) := by
  unfold GameState.keep at h
  split at h
  · cases h
  · rename_i hleg
    injection h with h1
    exact Or.inl ⟨hleg, h1.symm⟩
  · rename_i hleg
    split at h
    · cases h
    · rename_i c hw
      injection h with h1
      exact Or.inr ⟨c, hleg, hw, h1.symm⟩

/-- Core completeness fact: with a successfully computed legal-move list, the
legality test of a well-shaped move cannot panic, and if it passes together
with king safety the move is in the list. -/
lemma legal_list_complete (s : GameState) (L : List Move) (m : Move) (p : Piece)
    (hL : s.get_legal_moves = some L)
    (hp : s.board.get_piece m.from_sq = some p)
    (hcol : p.color = s.current_player)
    (hto : m.to_sq.is_valid)
    (hflag : s.auto_flagged m = true) :
    ∃ b, s.is_legal_move m p = some b ∧
      (b = true → ∃ c, s.would_leave_king_in_check m = some c ∧ (c = false → m ∈ L)) := by
  obtain ⟨h1, h2, h3⟩ := auto_flagged_spec s m p hp hflag
  have hcand := candidate_of_flags s m p h1 h2
  have hspec : spec_legal_moves s = some L := by
    rw [← legal_moves_eq_spec]
    exact hL
  have hmemp : (m.from_sq, p) ∈ s.board.get_pieces s.current_player := mem_get_pieces hp hcol
  obtain ⟨chunk, hchunk, hsubL⟩ := flat_map_opt_mem hspec hmemp
  obtain ⟨y, hy, hsubc⟩ := flat_map_opt_mem hchunk (mem_scan_squares hto)
  rw [spec_target_eq, hcand] at hy
  cases hky : s.keep p ⟨m.from_sq, m.to_sq, none, m.is_castling, m.is_en_passant⟩ with
  | none =>
    rw [hky] at hy
    cases hy
  | some b0 =>
    rw [hky] at hy
    rcases keep_eq_some _ _ _ _ hky with ⟨hleg, hb⟩ | ⟨c, hleg, hw, hb⟩
    · exact ⟨false, hleg, by simp⟩
    · refine ⟨true, hleg, fun _ => ⟨c, hw, fun hc => ?_⟩⟩
      subst hc
      subst hb
      simp only [Bool.not_false] at hy
      injection hy with hy1
      subst hy1
      refine hsubL _ (hsubc m ?_)
      unfold spec_expand
      by_cases hpr : p.piece_type = PieceType.Pawn ∧ m.to_sq.rank = promotion_rank p.color
      · rw [if_pos hpr] at h3 ⊢
        have hm : m = ⟨m.from_sq, m.to_sq, m.promotion, m.is_castling, m.is_en_passant⟩ := rfl
        rcases h3 with h4 | h4 | h4 | h4 <;>
          · rw [hm, h4]
            simp
      · rw [if_neg hpr] at h3 ⊢
        have hm : m = ⟨m.from_sq, m.to_sq, m.promotion, m.is_castling, m.is_en_passant⟩ := rfl
        rw [hm, h3]
        simp

lemma validate_err_shape (s : GameState) (m : Move) (e : ChessError)
    (h : s.validate_move m = some (.error e)) :
    (∃ r, e = .InvalidMove r) ∨ e = .NotYourTurn ∨ e = .KingInCheck := by
  unfold GameState.validate_move at h
  repeat' split at h
  all_goals try cases h
  all_goals first
    | exact Or.inl ⟨_, rfl⟩
    | exact Or.inr (Or.inl rfl)
    | exact Or.inr (Or.inr rfl)

lemma make_move_err_of_validate (s : GameState) (m : Move) (e : ChessError)
    (hst : s.status = .InProgress ∨ s.status = .Check)
    (hv : s.validate_move m = some (.error e)) : s.make_move m = .err e s := by
  unfold GameState.make_move
  rcases hst with h | h <;> rw [h, hv]

/-- C3 counterexample: from `new_game()` (status `InProgress`, non-terminal),
the move a2–a3 with `promotion = Some(Queen)` is *not* in `get_legal_moves()`
(the generated quiet move has an empty promotion field), yet `make_move`
accepts it rather than returning an error — validation ignores the promotion
field. -/
theorem c3_counterexample :
    GameState.new.status = .InProgress ∧
    (GameState.new.get_legal_moves.map
      (fun L => decide ((⟨⟨0, 1⟩, ⟨0, 2⟩, some .Queen, false, false⟩ : Move) ∈ L))) =
        some false ∧
    (GameState.new.make_move ⟨⟨0, 1⟩, ⟨0, 2⟩, some .Queen, false, false⟩).state?.isSome =
      true := by
  exact ⟨rfl, by decide, by decide⟩

/-- C3 amended: in a non-terminal state, a move that is not in
`get_legal_moves()` is rejected by `make_move` with `InvalidMove`,
`NotYourTurn` or `KingInCheck`, *provided* the move is well-shaped: its
destination is on the board, its castling and en-passant flags agree with the
auto-detection the generator performs, and its promotion field is empty except
on a pawn move to the promotion rank, where it is one of Queen, Rook, Bishop,
Knight (`auto_flagged`). -/
theorem c3_amended (s : GameState) (m : Move)
    (hst : s.status = .InProgress ∨ s.status = .Check)
    (hnot : (s.get_legal_moves.map fun L => decide (m ∈ L)) = some false)
    (hto : m.to_sq.is_valid)
    (hflag : s.auto_flagged m = true) :
    ∃ e, s.make_move m = .err e s ∧
      ((∃ r, e = .InvalidMove r) ∨ e = .NotYourTurn ∨ e = .KingInCheck) := by
  obtain ⟨L, hL, hmem⟩ : ∃ L, s.get_legal_moves = some L ∧ m ∉ L := by
    cases hgl : s.get_legal_moves with
    | none =>
      rw [hgl] at hnot
      cases hnot
    | some L =>
      rw [hgl] at hnot
      refine ⟨L, rfl, fun hm => ?_⟩
      simp [hm] at hnot
  cases hv : s.validate_move m with
  | none =>
    exfalso
    unfold GameState.validate_move at hv
    split at hv
    · cases hv
    · rename_i p hp
      split at hv
      · cases hv
      · rename_i hcol
        obtain ⟨b, hleg, hrest⟩ :=
          legal_list_complete s L m p hL hp (not_not.mp hcol) hto hflag
        split at hv
        · rename_i hlegnone
          rw [hlegnone] at hleg
          cases hleg
        · cases hv
        · rename_i hlegtrue
          split at hv
          · rename_i hwnone
            have hb : b = true := by
              rw [hleg] at hlegtrue
              injection hlegtrue
            obtain ⟨c, hw, _⟩ := hrest hb
            rw [hwnone] at hw
            cases hw
          · cases hv
          · cases hv
  | some ev =>
    cases ev with
    | error e =>
      exact ⟨e, make_move_err_of_validate s m e hst hv, validate_err_shape s m e hv⟩
    | ok u =>
      exfalso
      cases u
      obtain ⟨p, hp, hcol, hleg, hw⟩ := validate_ok_facts s m hv
      obtain ⟨b, hleg2, hrest⟩ := legal_list_complete s L m p hL hp hcol hto hflag
      have hb : b = true := by
        rw [hleg] at hleg2
        injection hleg2 with h1
        exact h1.symm
      obtain ⟨c, hw2, hmem2⟩ := hrest hb
      have hc : c = false := by
        rw [hw] at hw2
        injection hw2 with h1
        exact h1.symm
      exact hmem (hmem2 hc)

/-- Witness for the amended C3: from `new_game()`, the blocked rook move a1–a3
(well-shaped, not in the legal list) is rejected with one of the three
validation errors. -/
theorem c3_amended_witness :
    ∃ e, GameState.new.make_move ⟨⟨0, 0⟩, ⟨0, 2⟩, none, false, false⟩ =
        .err e GameState.new ∧
      ((∃ r, e = .InvalidMove r) ∨ e = .NotYourTurn ∨ e = .KingInCheck) :=
  c3_amended GameState.new ⟨⟨0, 0⟩, ⟨0, 2⟩, none, false, false⟩ (Or.inl rfl)
    (by decide) (by decide) (by decide)

lemma square_new_some {a b : Nat} {sq : Square} (h : Square.new a b = some sq) :
    sq = ⟨a, b⟩ := by
  unfold Square.new at h
  split at h
  · injection h with h1
    exact h1.symm
  · cases h

/-- "Preserved or cleared": the relation between a board and an updated board
at a square that keeps every piece-shape invariant. -/
lemma poc_remove (b : Board) (sq x : Square) :
    (b.remove_piece sq).1.get_piece x = b.get_piece x ∨
      (b.remove_piece sq).1.get_piece x = none := by
  rw [Board.get_piece_remove]
  split
  · right
    rfl
  · left
    rfl

lemma poc_set (b : Board) (sq x : Square) (p : Piece) (hx : x ≠ sq) :
    (b.set_piece sq p).get_piece x = b.get_piece x := by
  rw [Board.get_piece_set, if_neg (by tauto)]

lemma poc_trans {u v w : Option Piece}
    (h1 : v = u ∨ v = none) (h2 : w = v ∨ w = none) : w = u ∨ w = none := by
  rcases h1 with h1 | h1 <;> rcases h2 with h2 | h2 <;> simp [h1, h2]

lemma remove_rights_mono (cr : CastlingRights) (color : Color) (ks : Option Bool)
    (c : Color) (k : Bool) (h : (cr.remove_rights color ks).can_castle c k = true) :
    cr.can_castle c k = true := by
  cases color <;> cases c <;> cases k <;> rcases ks with _ | b <;> try cases b
  all_goals simpa [CastlingRights.remove_rights, CastlingRights.can_castle] using h

lemma remove_all_false (cr : CastlingRights) (c : Color) (k : Bool) :
    (cr.remove_rights c none).can_castle c k = false := by
  cases c <;> cases k <;> rfl

/-- If a castling right survives `update_castling_rights`, it was held before
and the piece now standing on the destination is not a king of that colour. -/
lemma ucr_rights (s : GameState) (m : Move) (s2 : GameState)
    (h : s.update_castling_rights m = some s2) (c : Color) (k : Bool)
    (hk : s2.castling_rights.can_castle c k = true) :
    s.castling_rights.can_castle c k = true ∧
    ∀ q, s.board.get_piece m.to_sq = some q →
      ¬(q.piece_type = PieceType.King ∧ q.color = c) := by
  unfold GameState.update_castling_rights at h
  split at h
  · cases h
  · rename_i q0 hq0
    have hqeq : ∀ q, s.board.get_piece m.to_sq = some q → q = q0 := by
      intro q hq
      rw [hq0] at hq
      injection hq with h1
      exact h1.symm
    split at h
    · rename_i hking
      cases h
      refine ⟨remove_rights_mono _ _ _ _ _ hk, ?_⟩
      rintro q hq ⟨hk1, hk2⟩
      rw [hqeq q hq] at hk2
      rw [hk2] at hk
      rw [remove_all_false] at hk
      cases hk
    · rename_i hrook
      have hnk : ∀ q, s.board.get_piece m.to_sq = some q →
          ¬(q.piece_type = PieceType.King ∧ q.color = c) := by
        rintro q hq ⟨hk1, _⟩
        rw [hqeq q hq, hrook] at hk1
        cases hk1
      refine ⟨?_, hnk⟩
      simp only [] at h
      split at h
      · cases h
        exact remove_rights_mono _ _ _ _ _ hk
      · split at h
        · cases h
          exact remove_rights_mono _ _ _ _ _ hk
        · cases h
          exact hk
    · rename_i hnotk hnotr
      cases h
      refine ⟨hk, ?_⟩
      rintro q hq ⟨hk1, _⟩
      exact hnotk (hqeq q hq ▸ hk1)

/-- After `execute_move`, any square other than the destination whose file is
4 (so never a castling rook target, which lands on file 3 or 5) holds either
its old piece or nothing. -/
lemma execute_get_other (s : GameState) (m : Move) (s1 : GameState)
    (h : s.execute_move m = some s1) (x : Square) (hxt : x ≠ m.to_sq)
    (hxf : x.file = 4) :
    s1.board.get_piece x = s.board.get_piece x ∨ s1.board.get_piece x = none := by
  have hmain := Board.move_piece_get_other s.board m.from_sq m.to_sq x hxt
  unfold GameState.execute_move at h
  split at h
  · cases h
  · rename_i piece hpiece
    simp only [] at h
    split at h
    · split at h
      · cases h
      · rename_i rook_from rook_to heq
        split at heq
        · cases h7 : Square.new 7 m.from_sq.rank with
          | none => rw [h7] at heq; simp at heq
          | some sq7 =>
            rw [h7] at heq
            cases h5 : Square.new 5 m.from_sq.rank with
            | none => rw [h5] at heq; simp at heq
            | some sq5 =>
              rw [h5] at heq
              simp only [Option.some_bind, Option.map_some] at heq
              injection heq with heq1
              have h5v : sq5 = ⟨5, m.from_sq.rank⟩ := square_new_some h5
              have hxr : x ≠ rook_to := by
                intro hxeq
                have h2v : rook_to = sq5 := (Prod.mk.injEq _ _ _ _ |>.mp heq1).2.symm
                rw [hxeq, h2v, h5v] at hxf
                cases hxf
              cases h
              exact poc_trans hmain
                (Board.move_piece_get_other _ rook_from rook_to x hxr)
        · cases h0 : Square.new 0 m.from_sq.rank with
          | none => rw [h0] at heq; simp at heq
          | some sq0 =>
            rw [h0] at heq
            cases h3 : Square.new 3 m.from_sq.rank with
            | none => rw [h3] at heq; simp at heq
            | some sq3 =>
              rw [h3] at heq
              simp only [Option.some_bind, Option.map_some] at heq
              injection heq with heq1
              have h3v : sq3 = ⟨3, m.from_sq.rank⟩ := square_new_some h3
              have hxr : x ≠ rook_to := by
                intro hxeq
                have h2v : rook_to = sq3 := (Prod.mk.injEq _ _ _ _ |>.mp heq1).2.symm
                rw [hxeq, h2v, h3v] at hxf
                cases hxf
              cases h
              exact poc_trans hmain
                (Board.move_piece_get_other _ rook_from rook_to x hxr)
    · split at h
      · cases h
      · rename_i b2 heq
        have hb2 : b2.get_piece x = s.board.get_piece x ∨ b2.get_piece x = none := by
          split at heq
          · cases hcs : Square.new m.to_sq.file m.from_sq.rank with
            | none => rw [hcs] at heq; simp at heq
            | some cs =>
              rw [hcs] at heq
              simp only [Option.map_some, Option.map_some'] at heq
              injection heq with heq1
              rw [← heq1]
              exact poc_trans hmain (poc_remove _ cs x)
          · injection heq with heq1
            rw [← heq1]
            exact hmain
        split at h
        · rename_i promo hpromo
          cases h
          rw [poc_set _ _ _ _ hxt]
          exact hb2
        · cases h
          exact hb2

lemma validate_eq_of_piece (s : GameState) (m : Move) (p : Piece)
    (hp : s.board.get_piece m.from_sq = some p) :
    s.validate_move m =
      (if p.color ≠ s.current_player then some (.error .NotYourTurn)
       else
         match s.is_legal_move m p with
         | none => none
         | some false => some (.error (.InvalidMove "Illegal move for this piece"))
         | some true =>
           match s.would_leave_king_in_check m with
           | none => none
           | some true => some (.error .KingInCheck)
           | some false => some (.ok ())) := by
  unfold GameState.validate_move
  rw [hp]

/-- The invariant behind the castling claim: while a colour still holds a
castling right, no king of that colour stands on file 4 of its back rank.  It
holds initially (the kings start on file 3) and is preserved by every accepted
move (any move that ends with a king of colour `c` on the destination — a king
move, a castling execution, or a promotion to king — revokes both of `c`'s
rights in the same call). -/
lemma inv_step (s : GameState) (m : Move) (sf : GameState) (h : s.make_move m = .ok sf)
    (hinv : ∀ c, (s.castling_rights.can_castle c true = true ∨
        s.castling_rights.can_castle c false = true) →
      s.board.get_piece (home_four c) ≠ some ⟨.King, c⟩) :
    ∀ c, (sf.castling_rights.can_castle c true = true ∨
        sf.castling_rights.can_castle c false = true) →
      sf.board.get_piece (home_four c) ≠ some ⟨.King, c⟩ := by
  obtain ⟨s1, s2, s3, s4, hv, hx, h2, h3, h4, h5⟩ := make_move_ok s m sf h
  intro c hrights hcontra
  obtain ⟨pc, hpc, hclkc, hb4, hpl4, hcr4, hep4, hfm4, hst4⟩ := update_clocks_spec s3 m s4 h4
  have hb : sf.board = s1.board := by
    rw [(update_status_fields _ _ h5).1, (switch_player_fields s4).1, hb4,
        (update_en_passant_fields s2 m s3 h3).1,
        (update_castling_rights_fields s1 m s2 h2).2.1]
  have hr : sf.castling_rights = s2.castling_rights := by
    rw [(update_status_fields _ _ h5).2.2.1, (switch_player_fields s4).2.1, hcr4,
        (update_en_passant_fields s2 m s3 h3).2.2.1]
  rw [hb] at hcontra
  rw [hr] at hrights
  have key : ∀ k : Bool, s2.castling_rights.can_castle c k = true → False := by
    intro k hk
    obtain ⟨hs1r, hnotking⟩ := ucr_rights s1 m s2 h2 c k hk
    have hsr : s.castling_rights.can_castle c k = true := by
      rw [← (execute_move_fields s m s1 hx).2.1]
      exact hs1r
    have hInvS := hinv c (by
      cases k with
      | false => exact Or.inr hsr
      | true => exact Or.inl hsr)
    by_cases hxt : home_four c = m.to_sq
    · rw [hxt] at hcontra
      exact hnotking _ hcontra ⟨rfl, rfl⟩
    · have hfile : (home_four c).file = 4 := by cases c <;> rfl
      rcases execute_get_other s m s1 hx (home_four c) hxt hfile with hold | hnone
      · rw [hold] at hcontra
        exact hInvS hcontra
      · rw [hnone] at hcontra
        cases hcontra
  rcases hrights with hk | hk
  · exact key true hk
  · exact key false hk

lemma reachable_inv {s : GameState} (h : Reachable s) :
    ∀ c, (s.castling_rights.can_castle c true = true ∨
        s.castling_rights.can_castle c false = true) →
      s.board.get_piece (home_four c) ≠ some ⟨.King, c⟩ := by
  induction h with
  | base =>
    intro c
    cases c
    · decide
    · decide
  | step hr hmk ih => exact inv_step _ _ _ hmk ih

/-- In a reachable state, a castling-flagged move whose source square holds a
king always fails validation. -/
lemma castling_validate_err (s : GameState) (m : Move)
    (hinv : ∀ c, (s.castling_rights.can_castle c true = true ∨
        s.castling_rights.can_castle c false = true) →
      s.board.get_piece (home_four c) ≠ some ⟨.King, c⟩)
    (hc : m.is_castling = true) (p : Piece)
    (hp : s.board.get_piece m.from_sq = some p) (hk : p.piece_type = PieceType.King) :
    ∃ e, s.validate_move m = some (.error e) := by
  rw [validate_eq_of_piece s m p hp]
  by_cases hcol : p.color ≠ s.current_player
  · exact ⟨.NotYourTurn, by rw [if_pos hcol]⟩
  · have hcast : s.is_legal_castling m p.color = some false := by
      unfold GameState.is_legal_castling
      simp only []
      by_cases hfrom : m.from_sq ≠
          (match p.color with | .White => (⟨4, 0⟩ : Square) | .Black => ⟨4, 7⟩)
      · rw [if_pos hfrom]
      · have hfromeq : m.from_sq = home_four p.color := by
          have hx := not_not.mp hfrom
          cases hcp : p.color <;> rw [hcp] at hx <;> exact hx
        have hathome : s.board.get_piece (home_four p.color) =
            some ⟨PieceType.King, p.color⟩ := by
          rw [← hfromeq, hp, ← hk]
        have hrf : s.castling_rights.can_castle p.color
            (decide (m.from_sq.file < m.to_sq.file)) = false := by
          by_contra htr
          have htr2 : s.castling_rights.can_castle p.color
              (decide (m.from_sq.file < m.to_sq.file)) = true := by
            revert htr
            cases s.castling_rights.can_castle p.color
              (decide (m.from_sq.file < m.to_sq.file)) <;> simp
          refine hinv p.color ?_ hathome
          cases hde : decide (m.from_sq.file < m.to_sq.file) with
          | false =>
            rw [hde] at htr2
            exact Or.inr htr2
          | true =>
            rw [hde] at htr2
            exact Or.inl htr2
        rw [if_neg hfrom,
          if_pos (show ¬(s.castling_rights.can_castle p.color
            (decide (m.from_sq.file < m.to_sq.file)) = true) by
              rw [hrf]
              simp)]
    have hlegal : s.is_legal_move m p = some false := by
      unfold GameState.is_legal_move
      split
      · rfl
      · rw [hk]
        simp only [hc]
        exact hcast
    refine ⟨.InvalidMove "Illegal move for this piece", ?_⟩
    rw [if_neg hcol, hlegal]

/-- C9 counterexample: `new_game()` is reachable, and the castling-flagged
knight move b1–a3 is *accepted* by `make_move` — the `is_castling` flag is
ignored for non-king pieces during validation, yet `execute_move` still runs
its castling branch (here the a1 rook is relocated onto d1, capturing White's
own king).  So it is not the case that every reachable state rejects every
move with `is_castling = true`. -/
theorem c9_counterexample :
    Reachable GameState.new ∧
    (GameState.new.make_move ⟨⟨1, 0⟩, ⟨0, 2⟩, none, true, false⟩).state?.isSome = true :=
  ⟨.base, by decide⟩

/-- C9 amended: in every reachable state, every castling-flagged move whose
*source square holds a king* is rejected by `make_move`: `is_legal_castling`
requires the king to stand on file 4 of its back rank, `new_game()` places the
kings on file 3, and no reachable state has a king on file 4 of its back rank
while that colour still holds a castling right (any move ending with a king on
its destination revokes both rights in the same call), so the castling branch
of validation never succeeds. -/
theorem c9_castling_never_executes (s : GameState) (hreach : Reachable s) (m : Move)
    (hc : m.is_castling = true) (p : Piece)
    (hp : s.board.get_piece m.from_sq = some p) (hk : p.piece_type = PieceType.King) :
    ∃ e t, s.make_move m = .err e t := by
  have hinv := reachable_inv hreach
  cases hst : s.status with
  | Checkmate w =>
    refine ⟨.GameOver, s, ?_⟩
    unfold GameState.make_move
    rw [hst]
  | Stalemate =>
    refine ⟨.GameOver, s, ?_⟩
    unfold GameState.make_move
    rw [hst]
  | Draw =>
    refine ⟨.GameOver, s, ?_⟩
    unfold GameState.make_move
    rw [hst]
  | InProgress =>
    obtain ⟨e, he⟩ := castling_validate_err s m hinv hc p hp hk
    exact ⟨e, s, make_move_err_of_validate s m e (Or.inl hst) he⟩
  | Check =>
    obtain ⟨e, he⟩ := castling_validate_err s m hinv hc p hp hk
    exact ⟨e, s, make_move_err_of_validate s m e (Or.inr hst) he⟩

/-- Witness for the amended C9: from `new_game()` (reachable), the
castling-flagged move of the white king from d1 is rejected. -/
theorem c9_amended_witness :
    ∃ e t, GameState.new.make_move ⟨⟨3, 0⟩, ⟨5, 0⟩, none, true, false⟩ = .err e t :=
  c9_castling_never_executes GameState.new .base ⟨⟨3, 0⟩, ⟨5, 0⟩, none, true, false⟩ rfl
    ⟨.King, .White⟩ (by decide) rfl

end Chess
